import Mathlib

/-!
Shallow embedding of the networking core of the `learn_rust` repository
(projects 26, 30, 31, 32) and proofs about it.

Machine integers are embedded as `Nat` with explicit `% 2^32` where u32
overflow matters.  Byte buffers are `List Nat`, text is `List Char`.
-/

set_option linter.unusedVariables false

/-- 2^32, the modulus of Rust's `u32` arithmetic. -/
def U32 : Nat := 4294967296

/-- Whitespace recognised by `serde_json` between JSON tokens:
space, newline, tab, carriage return. -/
def isWsChar (c : Char) : Bool :=
  c.toNat = 32 || c.toNat = 10 || c.toNat = 9 || c.toNat = 13

/-- ASCII decimal digit test. -/
def isDigitChar (c : Char) : Bool :=
  48 ≤ c.toNat && c.toNat ≤ 57

/-- Numeric value of an ASCII digit. -/
def digitVal (c : Char) : Nat := c.toNat - 48

/-- Decimal rendering of a `Nat` as the digit characters Rust's `Display`
writes (most significant digit first).  This is the integer rendering used
both by `serde_json::to_string` for the `u32` fields of `Point3D` and by
`write!("{}", _)` on integral values. -/
def natDigits (n : Nat) : List Char :=
  if h : n < 10 then [Nat.digitChar n]
  else natDigits (n / 10) ++ [Nat.digitChar (n % 10)]
decreasing_by exact Nat.div_lt_self (by omega) (by omega)

/-- Value of a digit string, most significant first. -/
def digitsVal (ds : List Char) : Nat :=
  ds.foldl (fun a c => a * 10 + digitVal c) 0

/-- The squared-sum `input.x.pow(2) + input.y.pow(2) + input.z.pow(2)`
computed by `handle_client` in
src/projects/32_json_tcp_client_and_server/src/main.rs.  The fields are
`u32`, so every squaring and addition is 32-bit (wrapping in release
builds; the same operations abort in debug builds when they overflow). -/
def normSq32 (x y z : Nat) : Nat :=
  ((x ^ 2 % U32 + y ^ 2 % U32) % U32 + z ^ 2 % U32) % U32

/-- The text `write!("{}", f64::from(value).sqrt())` produces, modelled on
the inputs where it is exact: when `value` is a perfect square, the `u32`
to `f64` conversion is exact, IEEE-754 sqrt is correctly rounded and hence
exact on it, and Rust's `Display` prints the integral result without a
fractional part.  Non-perfect-square values (irrational norms, printed by
Rust as a floating decimal) are outside the model and give `none`. -/
def normText (x y z : Nat) : Option (List Char) :=
  let v := normSq32 x y z
  let s := Nat.sqrt v
  if s * s = v then some (natDigits s) else none

/-- The full response `handle_client` writes for one request: the norm
text followed by the single `'\n'` written by the second `write!`. -/
def responseModel (x y z : Nat) : Option (List Char) :=
  (normText x y z).map (fun t => t ++ ['\n'])

/-- The `Point3D` struct of
src/projects/32_json_tcp_client_and_server/src/main.rs; the `u32` fields
are embedded as `Nat` with range side conditions where they matter. -/
structure Point3D where
  x : Nat
  y : Nat
  z : Nat
deriving DecidableEq, Repr

/-- Serde field accumulator while parsing a `Point3D` object: which of
the three fields have been seen, and their values. -/
structure PartPoint where
  x? : Option Nat := none
  y? : Option Nat := none
  z? : Option Nat := none
deriving DecidableEq, Repr

/-- Skip inter-token whitespace, as `serde_json`'s reader does. -/
def skipWs (cs : List Char) : List Char := cs.dropWhile isWsChar

/-- A JSON integer literal with a forbidden leading zero (`"01"`), which
`serde_json` rejects. -/
def leadingZero (ds : List Char) : Bool :=
  ds.head? == some '0' && 2 ≤ ds.length

/-- Longest digit prefix and the remainder. -/
def takeDigits (cs : List Char) : List Char × List Char :=
  cs.span isDigitChar

/-- Models `serde_json` number parsing restricted to the non-negative integer
literals that can populate the `u32` fields of `Point3D` (sign,
fraction and exponent forms all fail `u32` deserialization in serde and
are not modelled beyond failing). -/
def parseNumber (cs : List Char) : Option (Nat × List Char) :=
  match takeDigits cs with
  | ([], _) => none
  | (d :: ds, rest) =>
    if leadingZero (d :: ds) then none
    else some (digitsVal (d :: ds), rest)

/-- A JSON object key: a quoted string.  Escape sequences are not
modelled; the keys of the supported shape (`x`, `y`, `z`) need none. -/
def parseKey (cs : List Char) : Option (List Char × List Char) :=
  match cs with
  | '"' :: rest =>
    match rest.span (fun c => c != '"') with
    | (key, '"' :: rest2) => some (key, rest2)
    | _ => none
  | _ => none

/-- Record one parsed member into the accumulator, as serde's derived
`Deserialize` for `Point3D` does: a known field may appear once
(duplicates are an error) and must fit in `u32`; unknown fields are
ignored (serde's default). -/
def setField (acc : PartPoint) (key : List Char) (v : Nat) : Option PartPoint :=
  if key = ['x'] then
    match acc.x? with
    | none => if v < U32 then some { acc with x? := some v } else none
    | some _ => none
  else if key = ['y'] then
    match acc.y? with
    | none => if v < U32 then some { acc with y? := some v } else none
    | some _ => none
  else if key = ['z'] then
    match acc.z? with
    | none => if v < U32 then some { acc with z? := some v } else none
    | some _ => none
  else some acc

/-- After one `key : value` member: does the object continue (`,`) or
end (`}`)? -/
inductive MemberStep where
  | more
  | done
deriving DecidableEq, Repr

/-- Parse one `"key" : value` member followed by its `,` or `}`
terminator.  Values are restricted to the integer literals described at
`parseNumber`. -/
def parseMember (cs : List Char) (acc : PartPoint) :
    Option (MemberStep × PartPoint × List Char) :=
  match parseKey (skipWs cs) with
  | none => none
  | some (key, r1) =>
    match skipWs r1 with
    | ':' :: r2 =>
      match parseNumber (skipWs r2) with
      | none => none
      | some (v, r3) =>
        match setField acc key v with
        | none => none
        | some acc2 =>
          match skipWs r3 with
          | ',' :: r4 => some (.more, acc2, r4)
          | '}' :: r4 => some (.done, acc2, r4)
          | _ => none
    | _ => none

/-- The member list of a JSON object, fuelled.  Any fuel of at least the
member count gives the parse result (`parseMembersF_mono`); callers pass
one unit per input character, which always suffices because a member
consumes at least one character. -/
def parseMembersF : Nat → List Char → PartPoint → Option (PartPoint × List Char)
  | 0, _, _ => none
  | fuel + 1, cs, acc =>
    match parseMember cs acc with
    | none => none
    | some (.done, acc2, rest) => some (acc2, rest)
    | some (.more, acc2, rest) => parseMembersF fuel rest acc2

/-- The object part: consumes `{ members }` (or the empty object) from
the whitespace-skipped input and returns the field accumulator and what
follows the closing brace. -/
def objBody (t : List Char) : Option (PartPoint × List Char) :=
  if t.head? = some '{' then
    if (skipWs t.tail).head? = some '}' then
      some (({} : PartPoint), (skipWs t.tail).tail)
    else parseMembersF ((skipWs t.tail).length + 1) (skipWs t.tail) {}
  else none

/-- serde's end-of-struct check: all three fields must have been seen
(a missing field is a serde error). -/
def finishPoint (acc : PartPoint) : Option Point3D :=
  match acc.x?, acc.y?, acc.z? with
  | some x, some y, some z => some ⟨x, y, z⟩
  | _, _, _ => none

/-- Models `serde_json::from_slice::<Point3D>` on a byte buffer (here, its
characters): optional leading whitespace, one JSON object whose members
populate `x`, `y`, `z` (each required exactly once, unknown members
ignored), then nothing but trailing whitespace.  Any failure — including
the data not starting with an object — is serde's error value, returned
through `?` in `handle_client` as `Err`, modelled as `none`. -/
def fromJsonPoint3D (cs : List Char) : Option Point3D :=
  (objBody (skipWs cs)).bind
    (fun r => if skipWs r.2 = [] then finishPoint r.1 else none)

/-- Models `serde_json::to_string` on a `Point3D`: compact JSON, fields in
declaration order, `u32` values in decimal. -/
def toJsonPoint3D (p : Point3D) : List Char :=
  '{' :: '"' :: 'x' :: '"' :: ':' ::
    (natDigits p.x ++ ',' :: '"' :: 'y' :: '"' :: ':' ::
      (natDigits p.y ++ ',' :: '"' :: 'z' :: '"' :: ':' ::
        (natDigits p.z ++ ['}'])))

/-- The framed request the client sends (and the DelimitedJSON `encode`
of the spec): the JSON text followed by one `'\n'`. -/
def encodeDelimited (p : Point3D) : List Char :=
  toJsonPoint3D p ++ ['\n']

/-- Decoded application payload, as in the spec's data model. -/
inductive Message where
  | bytes (b : List Nat)
  | vector3 (x y z : Nat)
deriving DecidableEq, Repr

/-- Modelled from the spec: the Raw codec `encode` is a pass-through of
the message bytes (no Raw encoding of a `Vector3` is specified, so that
case is `none`).  The repository's echo server has no codec layer; this
is the spec's abstraction of its byte handling. -/
def rawEncode : Message → Option (List Nat)
  | .bytes b => some b
  | .vector3 _ _ _ => none

/-- Modelled from the spec: the Raw codec `decode` returns the bytes
unchanged. -/
def rawDecode (b : List Nat) : Message := .bytes b

/-- How one worker run ends: a clean `Ok(())` return after a zero-byte
read, an `Err` return that closes the connection, or a connection still
open when the scripted reads run out.  `writes` collects what was
written to the stream, in order. -/
inductive WorkerExit (α : Type) where
  | ok (writes : List α)
  | errClosed (writes : List α)
  | stillOpen (writes : List α)
deriving DecidableEq, Repr

/-- The 512-byte `buf` of the echo server, zero-initialised. -/
def echoInitBuf : List Nat := List.replicate 512 0

/-- Embeds `handle_client` of src/projects/26_simple_tcp_server/src/main.rs,
run against a script of `read` results: each iteration a read deposits
its chunk at the start of the reused buffer, a zero-byte read returns
`Ok(())`, otherwise `buf[..bytes_read]` is written back and the loop
continues. -/
def handleClientEcho : List (List Nat) → List Nat → List (List Nat) → WorkerExit (List Nat)
  | [], _, ws => .stillOpen ws.reverse
  | chunk :: rest, buf, ws =>
    if chunk.length = 0 then .ok ws.reverse
    else
      let buf2 := chunk ++ buf.drop chunk.length
      handleClientEcho rest buf2 (buf2.take chunk.length :: ws)

/-- Embeds `handle_client` of
src/projects/32_json_tcp_client_and_server/src/main.rs, run against a
script of `read_until(b'\n')` results (each line includes its trailing
newline when one arrived): zero bytes read returns `Ok(())`; a serde
decode failure propagates through `?` as `Err`, ending the worker with
no response for that request; otherwise the response for the decoded
point is written and the loop continues.  The response text is a
parameter (`resp`) because its floating-point rendering is modelled
separately (`responseModel`). -/
def handleClientJson (resp : Point3D → List Char) :
    List (List Char) → List (List Char) → WorkerExit (List Char)
  | [], ws => .stillOpen ws.reverse
  | line :: rest, ws =>
    if line.length = 0 then .ok ws.reverse
    else
      match fromJsonPoint3D line with
      | none => .errClosed ws.reverse
      | some p => handleClientJson resp rest (resp p :: ws)

/-- The reply of src/projects/30_simple_udp_server/src/main.rs for one
datagram: `recv_from` fills a fresh 1500-byte zeroed buffer with the
payload (truncating at 1500) and the worker executes
`sock.send_to(&buf, &src)` — the whole buffer, the received length
having been discarded as `_`. -/
def udpReplyFor (payload : List Nat) : List Nat :=
  payload.take 1500 ++ List.replicate (1500 - payload.length) 0

/-- How the process run ends in the exit-code model: an `exit(code)`
call, a panic (which aborts the process with Rust's panic exit status
101, not an `exit(1)`), or one of the two infinite service loops. -/
inductive ProcOutcome where
  | exit (code : Nat)
  | panicked
  | serving
  | clientLoop
deriving DecidableEq, Repr

/-- Embeds `server()` of src/projects/32_json_tcp_client_and_server/src/main.rs:
`TcpListener::bind(..).expect(..)` panics when the bind fails, otherwise
the accept loop runs forever. -/
def serverProc (bindOk : Bool) : ProcOutcome :=
  if bindOk then .serving else .panicked

/-- Embeds `client()` of the same file: `TcpStream::connect(..).expect(..)`
panics when the connect fails, otherwise the prompt loop runs. -/
def clientProc (connectOk : Bool) : ProcOutcome :=
  if connectOk then .clientLoop else .panicked

/-- Embeds `main()` of src/projects/32_json_tcp_client_and_server/src/main.rs:
`args` is the full argument vector including the program name
(`env::args`).  Any count other than 2 prints usage and calls
`exit(1)`; `--server` and `--client` dispatch; any other single
argument falls through both `if` arms and `main` returns, so the
process exits 0. -/
def mainProc (args : List String) (bindOk connectOk : Bool) : ProcOutcome :=
  if args.length ≠ 2 then .exit 1
  else if args.getD 1 "" = "--server" then serverProc bindOk
  else if args.getD 1 "" = "--client" then clientProc connectOk
  else .exit 0

/-- Rust's `str::split(',')` on a character list: splits at every comma,
keeping empty pieces; the empty input gives one empty piece. -/
def splitComma : List Char → List (List Char)
  | [] => [[]]
  | c :: rest =>
    if c = ',' then [] :: splitComma rest
    else
      match splitComma rest with
      | p :: ps => (c :: p) :: ps
      | [] => [[c]]

/-- Models `trim_matches('\n')`: strip newlines from both ends. -/
def trimNewlines (cs : List Char) : List Char :=
  ((cs.dropWhile (fun c => c == '\n')).reverse.dropWhile (fun c => c == '\n')).reverse

/-- Models `str::parse::<u32>()`: an optional leading `+`, then at least one
digit, value below 2^32; anything else is an error. -/
def stripPlus : List Char → List Char
  | '+' :: rest => rest
  | cs => cs

/-- See `stripPlus`; `none` is the parse error `unwrap` panics on. -/
def parseU32 (cs : List Char) : Option Nat :=
  let ds := stripPlus cs
  if ds = [] then none
  else if ds.all isDigitChar then
    if digitsVal ds < U32 then some (digitsVal ds) else none
  else none

/-- One iteration of `client()`'s input handling in
src/projects/32_json_tcp_client_and_server/src/main.rs: trim newlines,
split on commas, index parts 0..2 and `parse().unwrap()` each.  `none`
models the panic (out-of-bounds index or failed unwrap); `some` is the
`Point3D` that gets serialized and sent. -/
def clientParseLine (line : List Char) : Option Point3D :=
  let parts := splitComma (trimNewlines line)
  match parts[0]?, parts[1]?, parts[2]? with
  | some p0, some p1, some p2 =>
    match parseU32 p0, parseU32 p1, parseU32 p2 with
    | some x, some y, some z => some ⟨x, y, z⟩
    | _, _, _ => none
  | _, _, _ => none

/-! ## Helper lemmas: decimal digits -/

theorem digitVal_digitChar : ∀ n, n < 10 → digitVal (Nat.digitChar n) = n := by
  decide

theorem isDigitChar_digitChar : ∀ n, n < 10 → isDigitChar (Nat.digitChar n) = true := by
  decide

theorem digitChar_ne_zero_char : ∀ n, n < 10 → n ≠ 0 → Nat.digitChar n ≠ '0' := by
  decide

theorem natDigits_ne_nil (n : Nat) : natDigits n ≠ [] := by
  rw [natDigits]
  split
  · simp
  · simp

theorem natDigits_all_digit (n : Nat) :
    ∀ c ∈ natDigits n, isDigitChar c = true := by
  induction n using Nat.strong_induction_on with
  | _ n ih =>
    rw [natDigits]
    split
    · next h =>
      intro c hc
      rw [List.mem_singleton] at hc
      subst hc
      exact isDigitChar_digitChar n h
    · next h =>
      intro c hc
      rcases List.mem_append.mp hc with hm | hm
      · exact ih (n / 10) (Nat.div_lt_self (by omega) (by omega)) c hm
      · rw [List.mem_singleton] at hm
        subst hm
        exact isDigitChar_digitChar (n % 10) (Nat.mod_lt _ (by omega))

theorem foldl_digitVal_natDigits (n : Nat) :
    ∀ a : Nat,
      List.foldl (fun a c => a * 10 + digitVal c) a (natDigits n) =
        a * 10 ^ (natDigits n).length + n := by
  induction n using Nat.strong_induction_on with
  | _ n ih =>
    intro a
    rw [natDigits]
    split
    · next h =>
      simp only [List.foldl_cons, List.foldl_nil, List.length_singleton, pow_one]
      rw [digitVal_digitChar n h]
    · next h =>
      rw [List.foldl_append]
      rw [ih (n / 10) (Nat.div_lt_self (by omega) (by omega)) a]
      simp only [List.foldl_cons, List.foldl_nil, List.length_append,
        List.length_singleton]
      rw [digitVal_digitChar (n % 10) (Nat.mod_lt _ (by omega))]
      rw [pow_succ, ← Nat.mul_assoc]
      omega

theorem digitsVal_natDigits (n : Nat) : digitsVal (natDigits n) = n := by
  have h := foldl_digitVal_natDigits n 0
  simpa [digitsVal] using h

theorem natDigits_head_ne_zero (n : Nat) (hn : n ≠ 0) :
    (natDigits n).head? ≠ some '0' := by
  induction n using Nat.strong_induction_on with
  | _ n ih =>
    rw [natDigits]
    split
    · next h =>
      simpa using digitChar_ne_zero_char n h hn
    · next h =>
      rw [List.head?_append]
      have hne := natDigits_ne_nil (n / 10)
      have hd : n / 10 ≠ 0 := by omega
      have hh := ih (n / 10) (Nat.div_lt_self (by omega) (by omega)) hd
      rcases hcons : natDigits (n / 10) with _ | ⟨c, t⟩
      · exact absurd hcons hne
      · rw [hcons] at hh
        simpa using hh

theorem leadingZero_natDigits (n : Nat) : leadingZero (natDigits n) = false := by
  by_cases hn : n = 0
  · subst hn
    rw [natDigits]
    simp [leadingZero]
  · have hh := natDigits_head_ne_zero n hn
    rcases hcons : natDigits n with _ | ⟨c, t⟩
    · exact absurd hcons (natDigits_ne_nil n)
    · rw [hcons] at hh
      simp only [List.head?_cons, ne_eq, Option.some.injEq] at hh
      simp [leadingZero, hh]

/-! ## Helper lemmas: scanning -/

theorem takeWhile_of_all_then_stop {p : Char → Bool} :
    ∀ ds : List Char, ∀ c : Char, ∀ r : List Char,
      (∀ a ∈ ds, p a = true) → p c = false →
      (ds ++ c :: r).takeWhile p = ds := by
  intro ds
  induction ds with
  | nil =>
    intro c r _ hc
    simp [List.takeWhile_cons, hc]
  | cons a as ih =>
    intro c r hall hc
    have ha : p a = true := hall a (by simp)
    simp only [List.cons_append, List.takeWhile_cons, ha, if_true, List.cons.injEq,
      true_and]
    exact ih c r (fun b hb => hall b (by simp [hb])) hc

theorem dropWhile_of_all_then_stop {p : Char → Bool} :
    ∀ ds : List Char, ∀ c : Char, ∀ r : List Char,
      (∀ a ∈ ds, p a = true) → p c = false →
      (ds ++ c :: r).dropWhile p = c :: r := by
  intro ds
  induction ds with
  | nil =>
    intro c r _ hc
    simp [List.dropWhile_cons, hc]
  | cons a as ih =>
    intro c r hall hc
    have ha : p a = true := hall a (by simp)
    simp only [List.cons_append, List.dropWhile_cons, ha, if_true]
    exact ih c r (fun b hb => hall b (by simp [hb])) hc

theorem takeDigits_natDigits (n : Nat) (c : Char) (r : List Char)
    (hc : isDigitChar c = false) :
    takeDigits (natDigits n ++ c :: r) = (natDigits n, c :: r) := by
  rw [takeDigits, List.span_eq_take_drop,
    takeWhile_of_all_then_stop (natDigits n) c r (natDigits_all_digit n) hc,
    dropWhile_of_all_then_stop (natDigits n) c r (natDigits_all_digit n) hc]

theorem isWsChar_false_of_digit {c : Char} (h : isDigitChar c = true) :
    isWsChar c = false := by
  simp only [isDigitChar, Bool.and_eq_true, decide_eq_true_eq] at h
  simp only [isWsChar, Bool.or_eq_false_iff, decide_eq_false_iff_not]
  omega

theorem skipWs_cons_of_not_ws {c : Char} (r : List Char) (h : isWsChar c = false) :
    skipWs (c :: r) = c :: r := by
  simp [skipWs, List.dropWhile_cons, h]

theorem skipWs_natDigits_append (n : Nat) (r : List Char) :
    skipWs (natDigits n ++ r) = natDigits n ++ r := by
  rcases hcons : natDigits n with _ | ⟨c, t⟩
  · exact absurd hcons (natDigits_ne_nil n)
  · have hc : isDigitChar c = true := by
      apply natDigits_all_digit n
      rw [hcons]
      simp
    rw [List.cons_append]
    exact skipWs_cons_of_not_ws _ (isWsChar_false_of_digit hc)

theorem parseNumber_natDigits (n : Nat) (c : Char) (r : List Char)
    (hc : isDigitChar c = false) :
    parseNumber (natDigits n ++ c :: r) = some (n, c :: r) := by
  rcases hcons : natDigits n with _ | ⟨d, t⟩
  · exact absurd hcons (natDigits_ne_nil n)
  · have htake := takeDigits_natDigits n c r hc
    rw [hcons, List.cons_append] at htake
    rw [parseNumber, List.cons_append, htake]
    have hlz : leadingZero (d :: t) = false := by
      have := leadingZero_natDigits n
      rwa [hcons] at this
    have hval : digitsVal (d :: t) = n := by
      have := digitsVal_natDigits n
      rwa [hcons] at this
    simp [hlz, hval]

theorem parseMember_eval (k : Char) (n : Nat) (c : Char) (rest : List Char)
    (acc : PartPoint) (hk : (k != '"') = true) (hdc : isDigitChar c = false)
    (hwc : isWsChar c = false) :
    parseMember ('"' :: k :: '"' :: ':' :: (natDigits n ++ c :: rest)) acc =
      match setField acc [k] n with
      | none => none
      | some acc2 =>
        if c = ',' then some (.more, acc2, rest)
        else if c = '}' then some (.done, acc2, rest)
        else none := by
  have h1 : skipWs ('"' :: k :: '"' :: ':' :: (natDigits n ++ c :: rest)) =
      '"' :: k :: '"' :: ':' :: (natDigits n ++ c :: rest) :=
    skipWs_cons_of_not_ws _ (by decide)
  have h2 : parseKey ('"' :: k :: '"' :: ':' :: (natDigits n ++ c :: rest)) =
      some ([k], ':' :: (natDigits n ++ c :: rest)) := by
    simp [parseKey, List.span_eq_take_drop, List.takeWhile_cons,
      List.dropWhile_cons, hk]
  have h3 : skipWs (':' :: (natDigits n ++ c :: rest)) =
      ':' :: (natDigits n ++ c :: rest) := skipWs_cons_of_not_ws _ (by decide)
  have h4 : parseNumber (skipWs (natDigits n ++ c :: rest)) = some (n, c :: rest) := by
    rw [skipWs_natDigits_append]
    exact parseNumber_natDigits n c rest hdc
  have h5 : skipWs (c :: rest) = c :: rest := skipWs_cons_of_not_ws _ hwc
  simp only [parseMember, h1, h2, h3, h4, h5]
  cases hsf : setField acc [k] n with
  | none => simp
  | some acc2 =>
    by_cases hc1 : c = ','
    · subst hc1
      simp
    · by_cases hc2 : c = '}'
      · subst hc2
        simp
      · simp only [if_neg hc1, if_neg hc2]
        split
        · next heq =>
            injection heq with hh _
            exact absurd hh hc1
        · next heq =>
            injection heq with hh _
            exact absurd hh hc2
        · rfl

theorem parseMembersF_mono :
    ∀ f f' : Nat, f ≤ f' → ∀ cs acc r,
      parseMembersF f cs acc = some r → parseMembersF f' cs acc = some r := by
  intro f
  induction f with
  | zero =>
    intro f' _ cs acc r h
    simp [parseMembersF] at h
  | succ f ih =>
    intro f' hle cs acc r h
    rcases f' with _ | f''
    · omega
    · simp only [parseMembersF] at h ⊢
      cases hm : parseMember cs acc with
      | none =>
        rw [hm] at h
        exact absurd h (by simp)
      | some v =>
        rcases v with ⟨step, acc2, rest⟩
        cases step with
        | done =>
          rw [hm] at h
          exact h
        | more =>
          rw [hm] at h
          exact ih f'' (by omega) rest acc2 r h

theorem setField_x (x : Nat) (hx : x < U32) :
    setField {} ['x'] x = some { x? := some x } := by
  simp [setField, hx]

theorem setField_y (x y : Nat) (hy : y < U32) :
    setField { x? := some x } ['y'] y = some { x? := some x, y? := some y } := by
  simp [setField, hy]

theorem setField_z (x y z : Nat) (hz : z < U32) :
    setField { x? := some x, y? := some y } ['z'] z =
      some { x? := some x, y? := some y, z? := some z } := by
  simp [setField, hz]

theorem objBody_run (R : List Char) (out : PartPoint × List Char)
    (hR : skipWs R = R) (hne : R.head? ≠ some '}')
    (hrun : parseMembersF (R.length + 1) R {} = some out) :
    objBody ('{' :: R) = some out := by
  rw [objBody]
  simp only [List.head?_cons, List.tail_cons, hR, if_true]
  rw [if_neg hne]
  exact hrun

theorem fromJson_encode (x y z : Nat) (hx : x < U32) (hy : y < U32) (hz : z < U32) :
    fromJsonPoint3D (encodeDelimited ⟨x, y, z⟩) = some ⟨x, y, z⟩ := by
  have henc : encodeDelimited ⟨x, y, z⟩ =
      '{' :: '"' :: 'x' :: '"' :: ':' ::
        (natDigits x ++ ',' :: '"' :: 'y' :: '"' :: ':' ::
          (natDigits y ++ ',' :: '"' :: 'z' :: '"' :: ':' ::
            (natDigits z ++ '}' :: ['\n']))) := by
    simp [encodeDelimited, toJsonPoint3D]
  have e3 : parseMember
      ('"' :: 'z' :: '"' :: ':' :: (natDigits z ++ '}' :: ['\n']))
      { x? := some x, y? := some y } =
      some (.done, { x? := some x, y? := some y, z? := some z }, ['\n']) := by
    rw [parseMember_eval 'z' z '}' ['\n'] _ (by decide) (by decide) (by decide)]
    rw [setField_z x y z hz]
    simp
  have e2 : parseMember
      ('"' :: 'y' :: '"' :: ':' :: (natDigits y ++ ',' ::
        ('"' :: 'z' :: '"' :: ':' :: (natDigits z ++ '}' :: ['\n']))))
      { x? := some x } =
      some (.more, { x? := some x, y? := some y },
        '"' :: 'z' :: '"' :: ':' :: (natDigits z ++ '}' :: ['\n'])) := by
    rw [parseMember_eval 'y' y ',' _ _ (by decide) (by decide) (by decide)]
    rw [setField_y x y hy]
    simp
  have e1 : parseMember
      ('"' :: 'x' :: '"' :: ':' :: (natDigits x ++ ',' ::
        ('"' :: 'y' :: '"' :: ':' :: (natDigits y ++ ',' ::
          ('"' :: 'z' :: '"' :: ':' :: (natDigits z ++ '}' :: ['\n'])))))) {} =
      some (.more, { x? := some x },
        '"' :: 'y' :: '"' :: ':' :: (natDigits y ++ ',' ::
          ('"' :: 'z' :: '"' :: ':' :: (natDigits z ++ '}' :: ['\n'])))) := by
    rw [parseMember_eval 'x' x ',' _ _ (by decide) (by decide) (by decide)]
    rw [setField_x x hx]
    simp
  have st1 : ∀ f : Nat, parseMembersF (f + 1)
      ('"' :: 'z' :: '"' :: ':' :: (natDigits z ++ '}' :: ['\n']))
      { x? := some x, y? := some y } =
      some ({ x? := some x, y? := some y, z? := some z }, ['\n']) := by
    intro f
    simp only [parseMembersF, e3]
  have st2 : ∀ f : Nat, parseMembersF ((f + 1) + 1)
      ('"' :: 'y' :: '"' :: ':' :: (natDigits y ++ ',' ::
        ('"' :: 'z' :: '"' :: ':' :: (natDigits z ++ '}' :: ['\n']))))
      { x? := some x } =
      some ({ x? := some x, y? := some y, z? := some z }, ['\n']) := by
    intro f
    simp only [parseMembersF, e2]
    exact st1 f
  have st3 : ∀ f : Nat, parseMembersF (((f + 1) + 1) + 1)
      ('"' :: 'x' :: '"' :: ':' :: (natDigits x ++ ',' ::
        ('"' :: 'y' :: '"' :: ':' :: (natDigits y ++ ',' ::
          ('"' :: 'z' :: '"' :: ':' :: (natDigits z ++ '}' :: ['\n'])))))) {} =
      some ({ x? := some x, y? := some y, z? := some z }, ['\n']) := by
    intro f
    simp only [parseMembersF, e1]
    exact st2 f
  have hsk1 : skipWs ('"' :: 'x' :: '"' :: ':' :: (natDigits x ++ ',' ::
      ('"' :: 'y' :: '"' :: ':' :: (natDigits y ++ ',' ::
        ('"' :: 'z' :: '"' :: ':' :: (natDigits z ++ '}' :: ['\n'])))))) =
      '"' :: 'x' :: '"' :: ':' :: (natDigits x ++ ',' ::
      ('"' :: 'y' :: '"' :: ':' :: (natDigits y ++ ',' ::
        ('"' :: 'z' :: '"' :: ':' :: (natDigits z ++ '}' :: ['\n']))))) :=
    skipWs_cons_of_not_ws _ (by decide)
  have hlen2 : 2 ≤ ('"' :: 'x' :: '"' :: ':' :: (natDigits x ++ ',' ::
      ('"' :: 'y' :: '"' :: ':' :: (natDigits y ++ ',' ::
        ('"' :: 'z' :: '"' :: ':' :: (natDigits z ++ '}' :: ['\n'])))))).length := by
    simp only [List.length_cons]
    omega
  have hobj : objBody ('{' :: '"' :: 'x' :: '"' :: ':' :: (natDigits x ++ ',' ::
      ('"' :: 'y' :: '"' :: ':' :: (natDigits y ++ ',' ::
        ('"' :: 'z' :: '"' :: ':' :: (natDigits z ++ '}' :: ['\n'])))))) =
      some ({ x? := some x, y? := some y, z? := some z }, ['\n']) := by
    apply objBody_run
    · exact hsk1
    · simp
    · rw [show ('"' :: 'x' :: '"' :: ':' :: (natDigits x ++ ',' ::
        ('"' :: 'y' :: '"' :: ':' :: (natDigits y ++ ',' ::
          ('"' :: 'z' :: '"' :: ':' :: (natDigits z ++ '}' :: ['\n'])))))).length + 1 =
        (('"' :: 'x' :: '"' :: ':' :: (natDigits x ++ ',' ::
        ('"' :: 'y' :: '"' :: ':' :: (natDigits y ++ ',' ::
          ('"' :: 'z' :: '"' :: ':' :: (natDigits z ++ '}' :: ['\n'])))))).length - 2 + 1 + 1) + 1
        from by omega]
      exact st3 _
  rw [henc, fromJsonPoint3D]
  rw [skipWs_cons_of_not_ws _ (by decide : isWsChar '{' = false)]
  rw [hobj]
  rfl

/-! ## Helper lemmas: worker loops and evaluations -/

theorem handleClientEcho_run (reads : List (List Nat)) :
    ∀ buf ws, (∀ c ∈ reads, c ≠ []) →
      handleClientEcho (reads ++ [[]]) buf ws = .ok (ws.reverse ++ reads) := by
  induction reads with
  | nil =>
    intro buf ws _
    simp [handleClientEcho]
  | cons c rest ih =>
    intro buf ws h
    have hc : c ≠ [] := h c (by simp)
    have hlen : ¬ c.length = 0 := by simpa using hc
    simp only [List.cons_append, handleClientEcho, if_neg hlen, List.append_eq]
    rw [List.take_left' rfl]
    rw [ih _ _ (fun d hd => h d (by simp [hd]))]
    simp

theorem handleClientJson_run (resp : Point3D → List Char) (lines : List (List Char)) :
    ∀ ws, (∀ l ∈ lines, l ≠ [] ∧ fromJsonPoint3D l ≠ none) →
      ∃ out, handleClientJson resp (lines ++ [[]]) ws = .ok out := by
  induction lines with
  | nil =>
    intro ws _
    exact ⟨ws.reverse, by simp [handleClientJson]⟩
  | cons l rest ih =>
    intro ws h
    obtain ⟨hne, hdec⟩ := h l (by simp)
    obtain ⟨p, hp⟩ := Option.ne_none_iff_exists'.mp hdec
    have hlen : ¬ l.length = 0 := by simpa using hne
    simp only [List.cons_append, handleClientJson, if_neg hlen, hp]
    exact ih _ (fun d hd => h d (by simp [hd]))

theorem natDigits_lt_ten (n : Nat) (h : n < 10) :
    natDigits n = [Nat.digitChar n] := by
  rw [natDigits, dif_pos h]

theorem digit_not_lbrace {c : Char} (h : isDigitChar c = true) : c ≠ '{' := by
  intro hc
  subst hc
  exact absurd h (by decide)

theorem digit_not_newline {c : Char} (h : isDigitChar c = true) : c ≠ '\n' := by
  intro hc
  subst hc
  exact absurd h (by decide)

theorem normText_eval_340 : normText 3 4 0 = some ['5'] := by
  have hv : normSq32 3 4 0 = 25 := by decide
  have hs : Nat.sqrt 25 = 5 := by
    rw [show (25 : Nat) = 5 ^ 2 from by norm_num, Nat.sqrt_eq']
  simp only [normText, hv, hs]
  rw [if_pos (by norm_num)]
  rw [natDigits_lt_ten 5 (by norm_num)]
  rfl

theorem normText_eval_000 : normText 0 0 0 = some ['0'] := by
  have hv : normSq32 0 0 0 = 0 := by decide
  simp only [normText, hv, Nat.sqrt_zero]
  rw [if_pos (by norm_num)]
  rw [natDigits_lt_ten 0 (by norm_num)]
  rfl

theorem responseModel_eval_340 : responseModel 3 4 0 = some ['5', '\n'] := by
  rw [responseModel, normText_eval_340]
  rfl

/-! ## Claim theorems -/

/-- C1 (counterexample): the claim says the squared-sum is computed in
64-bit arithmetic and never overflows for 32-bit inputs, with the
correct norm returned.  The source computes
`input.x.pow(2) + input.y.pow(2) + input.z.pow(2)` on `u32`: at the
32-bit input x = 65536, y = z = 0 the computed squared-sum is 0, while
the mathematical value is 2^32 — the squaring overflows and the returned
norm (0) is wrong. -/
theorem claim1_counterexample :
    normSq32 65536 0 0 = 0 ∧
      65536 ^ 2 + 0 ^ 2 + 0 ^ 2 = 4294967296 ∧
      normSq32 65536 0 0 ≠ 65536 ^ 2 + 0 ^ 2 + 0 ^ 2 := by
  refine ⟨by decide, by norm_num, ?_⟩
  have h1 : normSq32 65536 0 0 = 0 := by decide
  have h2 : 65536 ^ 2 + 0 ^ 2 + 0 ^ 2 = 4294967296 := by norm_num
  rw [h1, h2]
  norm_num

/-- C1 (amended): the handler computes the squared sum in 32-bit (u32)
arithmetic, not 64-bit; the computed value equals the mathematical
x² + y² + z² exactly when that sum is below 2^32, and overflows for
larger 32-bit inputs. -/
theorem claim1_theorem (x y z : Nat) (h : x ^ 2 + y ^ 2 + z ^ 2 < U32) :
    normSq32 x y z = x ^ 2 + y ^ 2 + z ^ 2 := by
  have hU : U32 = 4294967296 := rfl
  rw [hU] at h
  have hx : x ^ 2 % U32 = x ^ 2 := Nat.mod_eq_of_lt (by rw [hU]; omega)
  have hy : y ^ 2 % U32 = y ^ 2 := Nat.mod_eq_of_lt (by rw [hU]; omega)
  have hz : z ^ 2 % U32 = z ^ 2 := Nat.mod_eq_of_lt (by rw [hU]; omega)
  simp only [normSq32, hx, hy, hz]
  have hxy : (x ^ 2 + y ^ 2) % U32 = x ^ 2 + y ^ 2 :=
    Nat.mod_eq_of_lt (by rw [hU]; omega)
  rw [hxy]
  exact Nat.mod_eq_of_lt (by rw [hU]; omega)

/-- C1 (witness): the amended theorem applied at (3, 4, 0). -/
theorem claim1_witness :
    3 ^ 2 + 4 ^ 2 + 0 ^ 2 < U32 ∧ normSq32 3 4 0 = 3 ^ 2 + 4 ^ 2 + 0 ^ 2 :=
  ⟨by decide, claim1_theorem 3 4 0 (by decide)⟩

/-- C2: the claim says each datagram's reply is exactly the datagram's
payload.  The source replies with `send_to(&buf, &src)` on the whole
1500-byte receive buffer (the received length is discarded as `_`), so a
5-byte payload gets a 1500-byte reply — the payload followed by 1495
zero bytes — not its own 5 bytes. -/
theorem claim2_theorem :
    (udpReplyFor [104, 101, 108, 108, 111]).length = 1500 ∧
      udpReplyFor [104, 101, 108, 108, 111] ≠ [104, 101, 108, 108, 111] := by
  have hlen : (udpReplyFor [104, 101, 108, 108, 111]).length = 1500 := by
    rw [udpReplyFor, List.length_append, List.length_take, List.length_replicate]
    simp only [List.length_cons, List.length_nil]
    omega
  refine ⟨hlen, ?_⟩
  intro hcontra
  have := congrArg List.length hcontra
  rw [hlen] at this
  simp at this

/-- C3 (counterexample): the claim says exit code 1 is produced on an
invalid mode selector and on bind failure.  The source panics on bind
failure (`expect`, Rust panic status 101, not `exit(1)`), and a single
unrecognized argument falls through both dispatch arms so `main` returns
and the process exits 0. -/
theorem claim3_counterexample :
    mainProc ["learn32", "--server"] false true = ProcOutcome.panicked ∧
      ProcOutcome.panicked ≠ ProcOutcome.exit 1 ∧
      mainProc ["learn32", "--badmode"] true true = ProcOutcome.exit 0 := by
  refine ⟨by decide, by decide, by decide⟩

/-- C3 (amended): the process calls `exit(1)` exactly when the argument
count differs from 2 (program name plus one selector); with exactly one
unrecognized selector it exits 0; bind failure and connect failure abort
by panic (Rust status 101), not by `exit(1)`. -/
theorem claim3_theorem (args : List String) (bindOk connectOk : Bool) :
    (mainProc args bindOk connectOk = ProcOutcome.exit 1 ↔ args.length ≠ 2) ∧
      (args.length = 2 → args.getD 1 "" ≠ "--server" → args.getD 1 "" ≠ "--client" →
        mainProc args bindOk connectOk = ProcOutcome.exit 0) ∧
      (args.length = 2 → args.getD 1 "" = "--server" → bindOk = false →
        mainProc args bindOk connectOk = ProcOutcome.panicked) := by
  simp only [mainProc, serverProc, clientProc]
  by_cases hl : args.length ≠ 2
  · rw [if_pos hl]
    refine ⟨by simp [hl], ?_, ?_⟩
    · intro h2
      exact absurd h2 hl
    · intro h2
      exact absurd h2 hl
  · rw [if_neg hl]
    push_neg at hl
    by_cases hs : args.getD 1 "" = "--server"
    · rw [if_pos hs]
      refine ⟨?_, ?_, ?_⟩
      · cases bindOk <;> simp [hl]
      · intro _ hns _
        exact absurd hs hns
      · intro _ _ hb
        subst hb
        simp
    · rw [if_neg hs]
      by_cases hc : args.getD 1 "" = "--client"
      · rw [if_pos hc]
        refine ⟨?_, ?_, ?_⟩
        · cases connectOk <;> simp [hl]
        · intro _ _ hnc
          exact absurd hc hnc
        · intro _ hs2 _
          exact absurd hs2 hs
      · rw [if_neg hc]
        refine ⟨by simp [hl], fun _ _ _ => rfl, ?_⟩
        intro _ hs2 _
        exact absurd hs2 hs

/-- C3 (witness): the amended theorem applied at a concrete argument
vector. -/
theorem claim3_witness :
    (mainProc ["learn32", "--badmode"] true true = ProcOutcome.exit 1 ↔
      (["learn32", "--badmode"] : List String).length ≠ 2) ∧
      ((["learn32", "--badmode"] : List String).length = 2 →
        (["learn32", "--badmode"] : List String).getD 1 "" ≠ "--server" →
        (["learn32", "--badmode"] : List String).getD 1 "" ≠ "--client" →
        mainProc ["learn32", "--badmode"] true true = ProcOutcome.exit 0) ∧
      ((["learn32", "--badmode"] : List String).length = 2 →
        (["learn32", "--badmode"] : List String).getD 1 "" = "--server" →
        true = false →
        mainProc ["learn32", "--badmode"] true true = ProcOutcome.panicked) :=
  claim3_theorem ["learn32", "--badmode"] true true

/-- C4: the Vector3Norm handler produces the text "5" for the request
x = 3, y = 4, z = 0 and the text "0" for x = y = z = 0 (decimal
formatting of the computed Euclidean norm). -/
theorem claim4_theorem :
    normText 3 4 0 = some ['5'] ∧ normText 0 0 0 = some ['0'] :=
  ⟨normText_eval_340, normText_eval_000⟩

/-- C5: decoding the buffer "\x7bnot json\x7d\n" yields serde's error
value rather than a panic, and for every line whose decode fails the
stream worker ends with an error return that closes the connection
having written no response.  (Each connection runs as an independent
worker function, so this outcome is confined to that connection.) -/
theorem claim5_theorem :
    fromJsonPoint3D ("\x7bnot json\x7d\n".toList) = none ∧
      (∀ (resp : Point3D → List Char) (line : List Char) (rest : List (List Char)),
        fromJsonPoint3D line = none → line ≠ [] →
        handleClientJson resp (line :: rest) [] = .errClosed []) := by
  refine ⟨by decide, ?_⟩
  intro resp line rest hdec hne
  simp [handleClientJson, hdec, hne]

/-- C5 (witness): the malformed-line case of the theorem applied to the
concrete buffer "\x7bnot json\x7d\n". -/
theorem claim5_witness :
    fromJsonPoint3D ("\x7bnot json\x7d\n".toList) = none ∧
      "\x7bnot json\x7d\n".toList ≠ ([] : List Char) ∧
      handleClientJson (fun _ => []) ["\x7bnot json\x7d\n".toList] [] = .errClosed [] :=
  ⟨by decide, by decide,
    claim5_theorem.2 (fun _ => []) _ [] (by decide) (by decide)⟩

/-- C6: for all in-range (x, y, z), DelimitedJSON-encoding a
Vector3/Point3D and decoding the result gives back exactly the same
point: serialization followed by deserialization is the identity on
this shape. -/
theorem claim6_theorem (x y z : Nat) (hx : x < U32) (hy : y < U32) (hz : z < U32) :
    fromJsonPoint3D (encodeDelimited ⟨x, y, z⟩) = some ⟨x, y, z⟩ :=
  fromJson_encode x y z hx hy hz

/-- C6 (witness): the round trip at the concrete point (3, 4, 5). -/
theorem claim6_witness :
    (3 < U32 ∧ 4 < U32 ∧ 5 < U32) ∧
      fromJsonPoint3D (encodeDelimited ⟨3, 4, 5⟩) = some ⟨3, 4, 5⟩ :=
  ⟨⟨by decide, by decide, by decide⟩,
    claim6_theorem 3 4 5 (by decide) (by decide) (by decide)⟩

/-- C7: the Echo behavior returns its input unchanged and never fails —
the Raw codec round-trip is the identity on byte messages, and the echo
worker of the raw TCP server writes back, in each iteration, exactly
the bytes that iteration's read produced. -/
theorem claim7_theorem :
    (∀ b : List Nat,
        (rawEncode (Message.bytes b)).map rawDecode = some (Message.bytes b)) ∧
      (∀ reads : List (List Nat), (∀ c ∈ reads, c ≠ [] ∧ c.length ≤ 512) →
        handleClientEcho (reads ++ [[]]) echoInitBuf [] = .ok reads) := by
  constructor
  · intro b
    rfl
  · intro reads h
    have hrun := handleClientEcho_run reads echoInitBuf [] (fun c hc => (h c hc).1)
    simpa using hrun

/-- C7 (witness): the echo worker run on one concrete read. -/
theorem claim7_witness :
    (∀ c ∈ [[1, 2, 3]], c ≠ ([] : List Nat) ∧ c.length ≤ 512) ∧
      handleClientEcho ([[1, 2, 3]] ++ [[]]) echoInitBuf [] = .ok [[1, 2, 3]] :=
  ⟨by decide, claim7_theorem.2 [[1, 2, 3]] (by decide)⟩

/-- C8: every successfully handled Vector3 request (modelled where the
floating norm is exact) is answered with the decimal digits of the norm
followed by a single newline — not JSON-wrapped: the body is all digits,
contains no newline and does not start with an object brace. -/
theorem claim8_theorem (x y z : Nat) (r : List Char)
    (h : responseModel x y z = some r) :
    ∃ body, r = body ++ ['\n'] ∧ body ≠ [] ∧
      (∀ c ∈ body, isDigitChar c = true) ∧
      digitsVal body = Nat.sqrt (normSq32 x y z) ∧
      '\n' ∉ body ∧ body.head? ≠ some '{' := by
  simp only [responseModel] at h
  rcases hmap : normText x y z with _ | t
  · rw [hmap] at h
    simp at h
  · rw [hmap] at h
    simp only [Option.map_some', Option.some.injEq] at h
    simp only [normText] at hmap
    split at hmap
    · next hsq =>
      have ht : t = natDigits (Nat.sqrt (normSq32 x y z)) := by
        simpa using hmap.symm
      subst ht
      refine ⟨natDigits (Nat.sqrt (normSq32 x y z)), h.symm,
        natDigits_ne_nil _, natDigits_all_digit _, digitsVal_natDigits _, ?_, ?_⟩
      · intro hmem
        exact digit_not_newline (natDigits_all_digit _ _ hmem) rfl
      · rcases hcons : natDigits (Nat.sqrt (normSq32 x y z)) with _ | ⟨c, cs⟩
        · exact absurd hcons (natDigits_ne_nil _)
        · have hd : isDigitChar c = true := by
            apply natDigits_all_digit
            rw [hcons]
            simp
          simp only [List.head?_cons, ne_eq, Option.some.injEq]
          exact digit_not_lbrace hd
    · exact absurd hmap (by simp)

/-- C8 (witness): the response for the request (3, 4, 0). -/
theorem claim8_witness :
    responseModel 3 4 0 = some ['5', '\n'] ∧
      (∃ body, ['5', '\n'] = body ++ ['\n'] ∧ body ≠ [] ∧
        (∀ c ∈ body, isDigitChar c = true) ∧
        digitsVal body = Nat.sqrt (normSq32 3 4 0) ∧
        '\n' ∉ body ∧ body.head? ≠ some '{') :=
  ⟨responseModel_eval_340, claim8_theorem 3 4 0 ['5', '\n'] responseModel_eval_340⟩

/-- C9: in both stream servers, a zero-byte read (peer closed) makes the
per-connection worker return cleanly with Ok, after any sequence of
successfully handled reads. -/
theorem claim9_theorem :
    (∀ reads : List (List Nat), (∀ c ∈ reads, c ≠ []) →
        ∃ ws, handleClientEcho (reads ++ [[]]) echoInitBuf [] = .ok ws) ∧
      (∀ (resp : Point3D → List Char) (lines : List (List Char)),
        (∀ l ∈ lines, l ≠ [] ∧ fromJsonPoint3D l ≠ none) →
        ∃ ws, handleClientJson resp (lines ++ [[]]) [] = .ok ws) := by
  constructor
  · intro reads h
    exact ⟨[].reverse ++ reads, handleClientEcho_run reads echoInitBuf [] h⟩
  · intro resp lines h
    exact handleClientJson_run resp lines [] h

/-- C9 (witness): both worker runs at concrete scripts ending in a
zero-byte read. -/
theorem claim9_witness :
    (∀ c ∈ [[7]], c ≠ ([] : List Nat)) ∧
      (∀ l ∈ [("\x7b\"x\":1,\"y\":2,\"z\":3\x7d\n".toList)],
        l ≠ [] ∧ fromJsonPoint3D l ≠ none) ∧
      (∃ ws, handleClientEcho ([[7]] ++ [[]]) echoInitBuf [] = .ok ws) ∧
      (∃ ws, handleClientJson (fun _ => [])
        ([("\x7b\"x\":1,\"y\":2,\"z\":3\x7d\n".toList)] ++ [[]]) [] = .ok ws) :=
  ⟨by decide, by decide,
    claim9_theorem.1 [[7]] (by decide),
    claim9_theorem.2 (fun _ => []) [("\x7b\"x\":1,\"y\":2,\"z\":3\x7d\n".toList)]
      (by decide)⟩

/-- C10: any stdin line without at least three comma-separated pieces
whose first three all parse as u32 makes the client's parse step fail —
in the source an out-of-bounds index into the split parts or an `unwrap`
on the failed parse, i.e. a panic instead of a recoverable error. -/
theorem claim10_theorem (line : List Char)
    (h : (splitComma (trimNewlines line)).length < 3 ∨
      parseU32 ((splitComma (trimNewlines line))[0]?.getD []) = none ∨
      parseU32 ((splitComma (trimNewlines line))[1]?.getD []) = none ∨
      parseU32 ((splitComma (trimNewlines line))[2]?.getD []) = none) :
    clientParseLine line = none := by
  rcases h0 : (splitComma (trimNewlines line))[0]? with _ | p0
  · simp [clientParseLine, h0]
  rcases h1 : (splitComma (trimNewlines line))[1]? with _ | p1
  · simp [clientParseLine, h0, h1]
  rcases h2 : (splitComma (trimNewlines line))[2]? with _ | p2
  · simp [clientParseLine, h0, h1, h2]
  rcases h with hlen | hu0 | hu1 | hu2
  · obtain ⟨hlt, -⟩ := List.getElem?_eq_some_iff.mp h2
    omega
  · rw [h0] at hu0
    simp only [Option.getD_some] at hu0
    simp [clientParseLine, h0, h1, h2, hu0]
  · rw [h1] at hu1
    simp only [Option.getD_some] at hu1
    rcases hv0 : parseU32 p0 with _ | v0
    · simp [clientParseLine, h0, h1, h2, hv0]
    · simp [clientParseLine, h0, h1, h2, hv0, hu1]
  · rw [h2] at hu2
    simp only [Option.getD_some] at hu2
    rcases hv0 : parseU32 p0 with _ | v0
    · simp [clientParseLine, h0, h1, h2, hv0]
    · rcases hv1 : parseU32 p1 with _ | v1
      · simp [clientParseLine, h0, h1, h2, hv0, hv1]
      · simp [clientParseLine, h0, h1, h2, hv0, hv1, hu2]

/-- C10 (witness): the theorem applied to the input line "1,2", which
splits into only two pieces. -/
theorem claim10_witness :
    (splitComma (trimNewlines ("1,2".toList))).length < 3 ∧
      clientParseLine ("1,2".toList) = none :=
  ⟨by decide, claim10_theorem _ (Or.inl (by decide))⟩
